import Mathlib

/-!
Verification of the CLTune autotuner core: a shallow embedding, in Lean 4, of the
configuration-space model (`kernel_info.cc`), the search-strategy family
(`searcher.cc`, `searchers/"*".cc`), the best-result selection of the reporting
functions (`cltune.cc` / `tuner.cc`) and the feature normalization of the machine-learning
models (`ml_model.cc`), together with theorems settling the specification claims.

Machine `double` values are modelled by exact rationals; the constant
`std::numeric_limits<double>::max()`, used by the code as the "failed"/"unknown"
time sentinel, is modelled by the exact rational value of `DBL_MAX`, and
`std::numeric_limits<float>::max()` by the exact value of `FLT_MAX`.  C++ `int`
values are modelled by `Int` (with `Int.div`, truncating division, mirroring C++
integer division).  Randomness is modelled by explicit oracle inputs (drawn
values and branch decisions), with the legal support of
`std::uniform_int_distribution` captured by `uniformIntSupport`.
-/

set_option maxRecDepth 100000

namespace CLTune

/-- The exact rational value of `std::numeric_limits<double>::max()` (DBL_MAX),
used throughout the source as the sentinel for an unknown or failed execution time. -/
def dblMax : ℚ := ((2 ^ 53 - 1) * 2 ^ 971 : ℕ)

/-- The exact rational value of `std::numeric_limits<float>::max()` (FLT_MAX),
the initial minimum in `MLModel<float>::ComputeNormalizations`. -/
def fltMax : ℚ := ((2 ^ 24 - 1) * 2 ^ 104 : ℕ)

/-! ## Configuration-space model (`src/kernel_info.cc`)

`KernelInfo::Configuration` is a name/value pair (one parameter bound to one
value); a complete configuration is a `std::vector` of those.  We keep the
source's names: `Setting` would be the spec's word, but the source calls the
pair itself `Configuration`, so we name the pair `Setting` and the vector
`Configuration` following the spec's data model, with fields exactly as in the
source struct. -/

/-- One parameter bound to one value (`KernelInfo::Configuration` in the source:
`{std::string name; int value;}`). -/
structure Setting where
  name : String
  value : Int
deriving DecidableEq, Repr

/-- A complete configuration: a vector of settings
(`std::vector<KernelInfo::Configuration>`). -/
abbrev Configuration := List Setting

/-- `KernelInfo::Parameter`: `{std::string name; std::vector<int> values;}`. -/
structure Parameter where
  name : String
  values : List Int
deriving DecidableEq, Repr

/-- `ConstraintType` enumeration from `kernel_info.h`. -/
inductive ConstraintType where
  | kEqual | kLargerThan | kLargerEqual | kSmallerThan | kSmallerEqual | kMultipleOf
deriving DecidableEq, Repr

/-- `OperatorType` enumeration from `kernel_info.h`. -/
inductive OperatorType where
  | kNoOp | kMultipliedBy | kDividedBy
deriving DecidableEq, Repr

/-- `KernelInfo::Constraint`: two compared parameters plus up to two extra
operations on the second parameter. -/
structure Constraint where
  parameter_1 : String
  type : ConstraintType
  parameter_2 : String
  op_1 : OperatorType
  parameter_3 : String
  op_2 : OperatorType
  parameter_4 : String
deriving DecidableEq, Repr

/-- The first setting of `conf` carrying name `nm`, if any (the source's inner
`for`-loops over the configuration take the first match and `break`). -/
def findSetting (conf : Configuration) (nm : String) : Option Setting :=
  conf.find? (fun s => s.name == nm)

/-- One `kMultipliedBy`/`kDividedBy` step of `KernelInfo::ValidConfiguration`
(`value_2 *= p.value` resp. `value_2 /= p.value`; C++ `int` division truncates,
hence `Int.div`). `kNoOp` never reaches this switch in the source. -/
def applyOperator (op : OperatorType) (value_2 x : Int) : Int :=
  match op with
  | .kMultipliedBy => value_2 * x
  | .kDividedBy => Int.tdiv value_2 x
  | .kNoOp => value_2

/-- Computes the effective second value of a constraint check: if `op_1` is not
`kNoOp` and a setting named `parameter_3` exists, apply `op_1` with its value,
and then (nested, as in the source) if `op_2` is not `kNoOp` and a setting named
`parameter_4` exists, apply `op_2` with its value.  Mirrors the nested loops of
`KernelInfo::ValidConfiguration` lines 203-228. -/
def constraintSecondValue (c : Constraint) (conf : Configuration) (value_2 : Int) : Int :=
  match c.op_1 with
  | .kNoOp => value_2
  | op1 =>
    match findSetting conf c.parameter_3 with
    | none => value_2
    | some p3 =>
      let v := applyOperator op1 value_2 p3.value
      match c.op_2 with
      | .kNoOp => v
      | op2 =>
        match findSetting conf c.parameter_4 with
        | none => v
        | some p4 => applyOperator op2 v p4.value

/-- The constraint-type switch of `KernelInfo::ValidConfiguration` lines 231-241. -/
def checkConstraint (t : ConstraintType) (value_1 value_2 : Int) : Bool :=
  match t with
  | .kEqual => value_1 == value_2
  | .kLargerThan => value_1 > value_2
  | .kLargerEqual => value_1 ≥ value_2
  | .kSmallerThan => value_1 < value_2
  | .kSmallerEqual => value_1 ≤ value_2
  | .kMultipleOf => (Int.tdiv value_1 value_2) * value_2 == value_1

/-- `KernelInfo::ValidConfiguration`: for every constraint, for every setting
`p1` matching `parameter_1` and every setting `p2` matching `parameter_2`, the
check must pass (the source returns `false` on the first failing check and
`true` after the loops, which is exactly this conjunction). -/
def validConfiguration (constraints : List Constraint) (conf : Configuration) : Bool :=
  constraints.all (fun c =>
    conf.all (fun p1 =>
      if p1.name == c.parameter_1 then
        conf.all (fun p2 =>
          if p2.name == c.parameter_2 then
            checkConstraint c.type p1.value (constraintSecondValue c conf p2.value)
          else true)
      else true))

/-- `KernelInfo::PopulateConfigurations`: depth-first recursion, one parameter
bound per level in declaration order; at the end of a chain the configuration is
kept iff `ValidConfiguration` accepts it. -/
def populateConfigurations (constraints : List Constraint) :
    List Parameter → Configuration → List Configuration
  | [], conf => if validConfiguration constraints conf then [conf] else []
  | p :: rest, conf =>
    p.values.flatMap (fun v =>
      populateConfigurations constraints rest (conf ++ [⟨p.name, v⟩]))

/-- `KernelInfo::SetConfigurationList`: kicks off the recursion with an empty
configuration. -/
def setConfigurationList (constraints : List Constraint) (parameters : List Parameter) :
    List Configuration :=
  populateConfigurations constraints parameters []

/-! ### Lemmas about the enumeration -/

/-- With no registered constraints, `ValidConfiguration` accepts everything. -/
theorem validConfiguration_nil (conf : Configuration) :
    validConfiguration [] conf = true := rfl

/-- Cardinality of the enumeration with no constraints: the product of the
numbers of candidate values, for any accumulator. -/
theorem populateConfigurations_nil_length (ps : List Parameter) :
    ∀ acc : Configuration,
      (populateConfigurations [] ps acc).length =
        (ps.map (fun p => p.values.length)).prod := by
  induction ps with
  | nil => intro acc; simp [populateConfigurations, validConfiguration_nil]
  | cons p rest ih =>
    intro acc
    simp only [populateConfigurations, List.length_flatMap, List.map_cons, List.prod_cons]
    have : ∀ v : Int,
        (populateConfigurations [] rest (acc ++ [⟨p.name, v⟩])).length =
          (rest.map (fun q => q.values.length)).prod := fun v => ih _
    calc (p.values.map
            (fun v => (populateConfigurations [] rest (acc ++ [⟨p.name, v⟩])).length)).sum
        = (p.values.map (fun _ => (rest.map (fun q => q.values.length)).prod)).sum := by
          congr 1
          exact List.map_congr_left (fun v _ => this v)
      _ = p.values.length * (rest.map (fun q => q.values.length)).prod := by
          rw [List.map_const']
          simp [List.sum_replicate, smul_eq_mul]

/-- Every configuration the enumeration produces (with no constraints) extends
the accumulator by the parameter names in declaration order. -/
theorem populateConfigurations_nil_names (ps : List Parameter) :
    ∀ (acc : Configuration) (conf : Configuration),
      conf ∈ populateConfigurations [] ps acc →
        conf.map Setting.name = acc.map Setting.name ++ ps.map Parameter.name := by
  induction ps with
  | nil =>
    intro acc conf h
    simp [populateConfigurations, validConfiguration_nil] at h
    simp [h]
  | cons p rest ih =>
    intro acc conf h
    simp only [populateConfigurations, List.mem_flatMap] at h
    obtain ⟨v, _, hmem⟩ := h
    have := ih (acc ++ [⟨p.name, v⟩]) conf hmem
    simpa using this

/-! ### Claim theorems for the enumeration -/

/-- C1: for a kernel with declared parameters having k1..kN candidate values
each and no constraints registered, `SetConfigurations` produces exactly
k1*k2*...*kN configurations, each containing exactly N settings whose names
appear in parameter-declaration order. -/
theorem setConfigurationList_no_constraints (ps : List Parameter) :
    (setConfigurationList [] ps).length = (ps.map (fun p => p.values.length)).prod ∧
    ∀ conf ∈ setConfigurationList [] ps,
      conf.map Setting.name = ps.map Parameter.name := by
  constructor
  · exact populateConfigurations_nil_length ps []
  · intro conf hconf
    simpa using populateConfigurations_nil_names ps [] conf hconf

/-- A concrete two-parameter space used to instantiate the C1 theorem. -/
def psW : List Parameter := [⟨"A", [1, 2]⟩, ⟨"B", [8, 9, 10]⟩]

/-- C1 witness: on a 2x3 parameter space the enumeration has 6 configurations
and a sampled member carries the parameter names in declaration order. -/
theorem setConfigurationList_no_constraints_witness :
    (setConfigurationList [] psW).length = 6 ∧
    ([⟨"A", 1⟩, ⟨"B", 8⟩] : Configuration) ∈ setConfigurationList [] psW ∧
    List.map Setting.name [⟨"A", (1 : Int)⟩, ⟨"B", 8⟩] = psW.map Parameter.name := by
  have hmem : ([⟨"A", 1⟩, ⟨"B", 8⟩] : Configuration) ∈ setConfigurationList [] psW := by
    decide
  exact ⟨((setConfigurationList_no_constraints psW).1).trans (by decide), hmem,
    (setConfigurationList_no_constraints psW).2 _ hmem⟩

/-- C8: enumerating configurations for a kernel with zero declared parameters
produces exactly one configuration, the empty one, regardless of which
constraints are registered (`ValidConfiguration` accepts the empty
configuration because its inner loops never find a matching setting). -/
theorem setConfigurationList_zero_parameters (cs : List Constraint) :
    setConfigurationList cs [] = [[]] := by
  have h : validConfiguration cs [] = true := by
    simp [validConfiguration]
  simp [setConfigurationList, populateConfigurations, h]

/-! ## Simulated annealing: the neighbour relation
(`src/searchers/annealing.cc`, `Annealing::GetNeighboursOf`) -/

/-- Out-of-range reads of a configuration are modelled by this default setting
(the source's reads are always in range for the uniform-length configuration
lists the enumeration produces). -/
def defaultSetting : Setting := ⟨"", 0⟩

/-- The inner loop of `Annealing::GetNeighboursOf`: the number of positions of
`candidate` whose value differs from the value at the same position of
`reference` (`setting.value != configurations_[reference_id][setting_id].value`). -/
def countDifferences (candidate reference : Configuration) : ℕ :=
  (List.range candidate.length).countP (fun j =>
    (candidate.getD j defaultSetting).value != (reference.getD j defaultSetting).value)

/-- `Annealing::GetNeighboursOf`: the ids (in order) of all configurations that
differ from the reference configuration in exactly one setting. -/
def getNeighboursOf (configurations : List Configuration) (reference_id : ℕ) : List ℕ :=
  (List.range configurations.length).filter (fun other_id =>
    countDifferences (configurations.getD other_id []) (configurations.getD reference_id []) == 1)

/-- Counting value differences position-by-position is symmetric once the two
configurations have the same length. -/
theorem countDifferences_comm (c r : Configuration) (h : c.length = r.length) :
    countDifferences c r = countDifferences r c := by
  unfold countDifferences
  rw [h]
  exact List.countP_congr (fun j _ => by simp [bne, BEq.comm])

/-- C5: the neighbour relation computed by `Annealing::GetNeighboursOf` is
symmetric: for every configuration list whose members all have the same length
(as produced by the enumeration) and every pair of in-range ids X and Y, Y is a
neighbour of X if and only if X is a neighbour of Y. -/
theorem getNeighboursOf_symm (configurations : List Configuration) (n : ℕ)
    (hlen : ∀ c ∈ configurations, c.length = n) (x y : ℕ)
    (hx : x < configurations.length) (hy : y < configurations.length) :
    y ∈ getNeighboursOf configurations x ↔ x ∈ getNeighboursOf configurations y := by
  have hcx : (configurations.getD x []).length = n := by
    rw [List.getD_eq_getElem _ _ hx]
    exact hlen _ (List.getElem_mem hx)
  have hcy : (configurations.getD y []).length = n := by
    rw [List.getD_eq_getElem _ _ hy]
    exact hlen _ (List.getElem_mem hy)
  have hsymm : countDifferences (configurations.getD y []) (configurations.getD x []) =
      countDifferences (configurations.getD x []) (configurations.getD y []) :=
    countDifferences_comm _ _ (hcy.trans hcx.symm)
  constructor
  · intro h
    rcases List.mem_filter.mp h with ⟨-, hcount⟩
    exact List.mem_filter.mpr ⟨List.mem_range.mpr hx, by rw [hsymm] at hcount; exact hcount⟩
  · intro h
    rcases List.mem_filter.mp h with ⟨-, hcount⟩
    exact List.mem_filter.mpr ⟨List.mem_range.mpr hy, by rw [hsymm]; exact hcount⟩

/-- A concrete configuration list (two single-parameter configurations) used to
instantiate the neighbour-symmetry theorem. -/
def cfgsN : List Configuration := [[⟨"P", 16⟩], [⟨"P", 32⟩]]

/-- C5 witness: on a concrete two-configuration list, configuration 1 is a
neighbour of configuration 0 and conversely. -/
theorem getNeighboursOf_symm_witness :
    (∀ c ∈ cfgsN, c.length = 1) ∧ 0 < cfgsN.length ∧ 1 < cfgsN.length ∧
    ((1 ∈ getNeighboursOf cfgsN 0) ↔ (0 ∈ getNeighboursOf cfgsN 1)) := by
  exact ⟨by decide, by decide, by decide,
    getNeighboursOf_symm cfgsN 1 (by decide) 0 1 (by decide) (by decide)⟩

/-! ## The base Searcher and the Annealing searcher
(`src/searcher.cc`, `src/searchers/annealing.cc`)

The mutable state of a `Searcher` comprises the cursor `index_`, the per-slot
`execution_times_` vector (initialized to `DBL_MAX`), and the exploration log
`explored_indices_`.  `Annealing` adds the annealing-specific members.  The
random number generator is modelled by explicit oracle inputs: the outcome of
the probability comparison `acceptance_probability > random_probability` as a
`Bool`, and the raw draw of `int_distribution_(generator_)` as a `ℕ` (the
source reduces it modulo the number of neighbours). -/

/-- State of the base `Searcher` class (`searcher.h` lines 73-78, minus the
read-only `configurations_` list which is passed separately). -/
structure SearcherState where
  execution_times : List ℚ
  explored_indices : List ℕ
  index : ℕ
deriving DecidableEq, Repr

/-- `Searcher::Searcher`: times all `DBL_MAX`, empty log, cursor 0. -/
def searcherInit (configurations : List Configuration) : SearcherState :=
  { execution_times := List.replicate configurations.length dblMax
    explored_indices := []
    index := 0 }

/-- `Searcher::PushExecutionTime` (the variant used by FullSearch and
RandomSearch): appends the cursor to the log and records the time at the
cursor's slot. -/
def searcherPushExecutionTime (st : SearcherState) (execution_time : ℚ) : SearcherState :=
  { st with explored_indices := st.explored_indices ++ [st.index]
            execution_times := st.execution_times.set st.index execution_time }

/-- State of the `Annealing` searcher: the base-class state plus the
annealing-specific members of `annealing.h`. -/
structure AnnealingState where
  execution_times : List ℚ
  explored_indices : List ℕ
  index : ℕ
  num_visited_states : ℕ
  current_state : ℕ
  neighbour_state : ℕ
  num_already_visited_states : ℕ
deriving DecidableEq, Repr

/-- `Annealing::Annealing`: base-class initialization plus zeroed annealing
counters and states. -/
def annealingInit (configurations : List Configuration) : AnnealingState :=
  { execution_times := List.replicate configurations.length dblMax
    explored_indices := []
    index := 0
    num_visited_states := 0
    current_state := 0
    neighbour_state := 0
    num_already_visited_states := 0 }

/-- `Annealing::GetConfiguration`: returns the configuration at the cursor and
increments the visited-states counter. -/
def annealingGetConfiguration (configurations : List Configuration) (st : AnnealingState) :
    Configuration × AnnealingState :=
  (configurations.getD st.index [], { st with num_visited_states := st.num_visited_states + 1 })

/-- `Annealing::PushExecutionTime`: appends `current_state_` to the exploration
log while recording the execution time at the cursor `index_`. -/
def annealingPushExecutionTime (st : AnnealingState) (execution_time : ℚ) : AnnealingState :=
  { st with explored_indices := st.explored_indices ++ [st.current_state]
            execution_times := st.execution_times.set st.index execution_time }

/-- `Annealing::CalculateNextIndex`.  Each entry of `oracles` supplies the
randomness of one call: the outcome of `acceptance_probability >
random_probability` (the temperature and the two energies only feed this
comparison) and the raw draw of `int_distribution_(generator_)`.  The retry
recursion consumes the next oracle entry; the source bounds it by
`kMaxAlreadyVisitedStates` (`kMax` here; its value is declared but not defined
in this snapshot's `annealing.h`), so an oracle list longer than `kMax` is
never exhausted in the source's reachable traces. -/
def annealingCalculateNextIndex (configurations : List Configuration) (kMax : ℕ) :
    AnnealingState → List (Bool × ℕ) → AnnealingState
  | st, [] => st
  | st, (accept, draw) :: rest =>
    let st1 := if accept then { st with current_state := st.neighbour_state } else st
    let neighbours := getNeighboursOf configurations st1.current_state
    let st2 := { st1 with neighbour_state := neighbours.getD (draw % neighbours.length) 0 }
    if st2.execution_times.getD st2.neighbour_state dblMax ≠ dblMax ∧
        st2.num_already_visited_states < kMax then
      annealingCalculateNextIndex configurations kMax
        { st2 with num_already_visited_states := st2.num_already_visited_states + 1 } rest
    else
      { st2 with num_already_visited_states := 0, index := st2.neighbour_state }

/-- The two-configuration list used to drive the Annealing trace: each
configuration is the unique neighbour of the other. -/
def cfgsA : List Configuration := [[⟨"P", 1⟩], [⟨"P", 2⟩]]

/-- The Annealing state after one full tuner iteration (get, push time 7,
calculate next index) followed by the `GetConfiguration` and
`PushExecutionTime(5)` of the second iteration.  The first `CalculateNextIndex`
call accepts the (identical) neighbour — the source forces this outcome, since
with equal energies the acceptance probability is `exp 0 = 1`, strictly above
any draw of `uniform_real_distribution(0,1)` — and then moves the cursor to
configuration 1, the unique neighbour of configuration 0, while
`current_state_` stays 0. -/
def annealingTrace : AnnealingState :=
  let st0 := (annealingGetConfiguration cfgsA (annealingInit cfgsA)).2
  let st1 := annealingPushExecutionTime st0 7
  let st2 := annealingCalculateNextIndex cfgsA 10 st1 [(true, 0)]
  let st3 := (annealingGetConfiguration cfgsA st2).2
  annealingPushExecutionTime st3 5

/-- C6: evaluation of the code at the failing trace.  After the cursor has
moved to configuration 1 (`index_ = 1`, `current_state_ = 0`), pushing the
measured time 5 appends `current_state_ = 0` to the exploration log — not the
cursor index 1 whose configuration was just executed and whose time slot
receives the 5 — so the log reads `[0, 0]` while the times vector reads
`[7, 5]`: the logged index and the index whose time was recorded disagree. -/
theorem annealingPushExecutionTime_logs_wrong_index :
    annealingTrace.explored_indices = [0, 0] ∧
    annealingTrace.execution_times = [7, 5] ∧
    (annealingCalculateNextIndex cfgsA 10
      (annealingPushExecutionTime
        (annealingGetConfiguration cfgsA (annealingInit cfgsA)).2 7) [(true, 0)]).index = 1 := by
  refine ⟨?_, ?_, ?_⟩ <;> decide

/-! ## The PSO searcher (`src/searchers/pso.cc`) -/

/-- The legal support of `std::uniform_int_distribution(lo, hi)`: the C++
standard specifies the CLOSED interval, so both bounds are produced.  The PSO
constructor instantiates `int_distribution_(0, configurations_.size())` and the
random-move branch of `PSO::CalculateNextIndex` instantiates
`distribution(0, parameters_[i].values.size())` — in both cases the inclusive
upper bound equals the length of the list subsequently indexed. -/
def uniformIntSupport (lo hi draw : ℕ) : Prop := lo ≤ draw ∧ draw ≤ hi

instance (lo hi draw : ℕ) : Decidable (uniformIntSupport lo hi draw) :=
  inferInstanceAs (Decidable (lo ≤ draw ∧ draw ≤ hi))

/-- State of the `PSO` searcher: the base-class state plus the PSO-specific
members of `pso.h` (swarm positions, local and global bests). -/
structure PSOState where
  execution_times : List ℚ
  explored_indices : List ℕ
  index : ℕ
  particle_index : ℕ
  particle_positions : List ℕ
  global_best_time : ℚ
  local_best_times : List ℚ
  global_best_config : Configuration
  local_best_configs : List Configuration
deriving DecidableEq, Repr

/-- `PSO::PSO`: every particle position is a fresh draw of
`int_distribution_(generator_)` (modelled by the `draws` oracle), the best
times start at `DBL_MAX`, the best configurations start empty, and the cursor
is the position of particle 0. -/
def psoConstruct (configurations : List Configuration) (swarm_size : ℕ) (draws : List ℕ) :
    PSOState :=
  let positions := (List.range swarm_size).map (fun i => draws.getD i 0)
  { execution_times := List.replicate configurations.length dblMax
    explored_indices := []
    index := positions.getD 0 0
    particle_index := 0
    particle_positions := positions
    global_best_time := dblMax
    local_best_times := List.replicate swarm_size dblMax
    global_best_config := []
    local_best_configs := List.replicate swarm_size [] }

/-- `PSO::GetConfiguration`: reads the configuration list at the cursor. -/
def psoGetConfiguration (configurations : List Configuration) (st : PSOState) : Configuration :=
  configurations.getD st.index []

/-- The read `parameters_[i].values[draw]` performed by the random-move branch
of `PSO::CalculateNextIndex` (line 95). -/
def psoRandomMoveValue (parameters : List Parameter) (i draw : ℕ) : Int :=
  ((parameters.getD i ⟨"", []⟩).values).getD draw 0

/-- `PSO::PushExecutionTime`: base-class bookkeeping (log the cursor, record
the time at the cursor's slot), then update the current particle's local best
and the swarm-wide global best whenever the new time is strictly lower. -/
def psoPushExecutionTime (configurations : List Configuration) (st : PSOState)
    (execution_time : ℚ) : PSOState :=
  let st1 := { st with explored_indices := st.explored_indices ++ [st.index]
                       execution_times := st.execution_times.set st.index execution_time }
  let st2 :=
    if execution_time < st1.local_best_times.getD st1.particle_index dblMax then
      { st1 with
          local_best_times := st1.local_best_times.set st1.particle_index execution_time
          local_best_configs :=
            st1.local_best_configs.set st1.particle_index (configurations.getD st1.index []) }
    else st1
  if execution_time < st2.global_best_time then
    { st2 with global_best_time := execution_time
               global_best_config := configurations.getD st2.index [] }
  else st2

/-- One step of a PSO run, as driven by the orchestrator loop: either a
`PushExecutionTime` call, or a `CalculateNextIndex` call.
`PSO::CalculateNextIndex` (lines 71-107) writes only the cursor fields
`particle_positions_`, `particle_index_` and `index_` — the best-tracking and
log fields are written exclusively by `PushExecutionTime` — so its effect is
modelled by the resulting values of those three fields. -/
inductive PSOOp where
  | push (t : ℚ)
  | move (new_index new_particle : ℕ) (new_positions : List ℕ)

/-- Applies one `PSOOp` to a PSO state. -/
def psoApplyOp (configurations : List Configuration) (st : PSOState) : PSOOp → PSOState
  | .push t => psoPushExecutionTime configurations st t
  | .move i p pos =>
    { st with index := i, particle_index := p, particle_positions := pos }

/-- Runs a sequence of PSO operations. -/
def psoRun (configurations : List Configuration) (st : PSOState) (ops : List PSOOp) : PSOState :=
  ops.foldl (psoApplyOp configurations) st

/-- The execution times pushed by a sequence of PSO operations, in order. -/
def pushedTimes (ops : List PSOOp) : List ℚ :=
  ops.filterMap (fun op => match op with | .push t => some t | .move _ _ _ => none)

/-- `PushExecutionTime` turns the global best time into the minimum of its old
value and the pushed time. -/
theorem psoPushExecutionTime_global_best_time (configurations : List Configuration)
    (st : PSOState) (t : ℚ) :
    (psoPushExecutionTime configurations st t).global_best_time =
      min st.global_best_time t := by
  unfold psoPushExecutionTime
  dsimp only
  split_ifs with h1 h2 h3
  · exact (min_eq_right h2.le).symm
  · exact (min_eq_left (not_lt.mp h2)).symm
  · exact (min_eq_right h3.le).symm
  · exact (min_eq_left (not_lt.mp h3)).symm

/-- When the pushed time strictly beats the stored global best, the update
branch fires: the global best time becomes the pushed time and the global best
configuration becomes the configuration at the cursor. -/
theorem psoPushExecutionTime_update (configurations : List Configuration)
    (st : PSOState) (t : ℚ) (h : t < st.global_best_time) :
    (psoPushExecutionTime configurations st t).global_best_time = t ∧
    (psoPushExecutionTime configurations st t).global_best_config =
      configurations.getD st.index [] := by
  unfold psoPushExecutionTime
  dsimp only
  split_ifs with h1 <;> exact ⟨rfl, rfl⟩

/-- Across any run, the global best time is the minimum of its starting value
and all pushed times. -/
theorem psoRun_global_best_time (configurations : List Configuration) :
    ∀ (ops : List PSOOp) (st : PSOState),
      (psoRun configurations st ops).global_best_time =
        (pushedTimes ops).foldl min st.global_best_time := by
  intro ops
  induction ops with
  | nil => intro st; rfl
  | cons op rest ih =>
    intro st
    cases op with
    | move i p pos =>
      simpa [psoRun, psoApplyOp, pushedTimes] using ih _
    | push t =>
      have hstep := psoPushExecutionTime_global_best_time configurations st t
      have : psoRun configurations st (.push t :: rest) =
          psoRun configurations (psoPushExecutionTime configurations st t) rest := rfl
      rw [this, ih, hstep]
      simp [pushedTimes]

/-- A value below the seed and below every member of a list is below the
left-fold of `min` over the list. -/
theorem lt_foldl_min (t : ℚ) : ∀ (l : List ℚ) (a : ℚ),
    t < a → (∀ u ∈ l, t < u) → t < l.foldl min a := by
  intro l
  induction l with
  | nil => intro a ha _; exact ha
  | cons u rest ih =>
    intro a ha hl
    simp only [List.foldl_cons]
    exact ih (min a u) (lt_min ha (hl u (by simp))) (fun v hv => hl v (by simp [hv]))

/-- C4 (amended): for every reachable PSO state, after `PushExecutionTime(t)`
where `t` is strictly lower than every previously pushed time AND strictly
lower than the `DBL_MAX` sentinel the best times start from, `global_best_time`
equals `t` and `global_best_config` equals the configuration at the current
cursor index. -/
theorem psoPushExecutionTime_new_global_best (configurations : List Configuration)
    (swarm_size : ℕ) (draws : List ℕ) (ops : List PSOOp) (t : ℚ)
    (hlow : ∀ u ∈ pushedTimes ops, t < u) (hfin : t < dblMax) :
    (psoPushExecutionTime configurations
        (psoRun configurations (psoConstruct configurations swarm_size draws) ops)
        t).global_best_time = t ∧
    (psoPushExecutionTime configurations
        (psoRun configurations (psoConstruct configurations swarm_size draws) ops)
        t).global_best_config =
      configurations.getD
        (psoRun configurations (psoConstruct configurations swarm_size draws) ops).index [] := by
  have hg : (psoRun configurations (psoConstruct configurations swarm_size draws)
      ops).global_best_time = (pushedTimes ops).foldl min dblMax := by
    rw [psoRun_global_best_time]
    rfl
  have hlt : t < (psoRun configurations (psoConstruct configurations swarm_size draws)
      ops).global_best_time := by
    rw [hg]
    exact lt_foldl_min t _ dblMax hfin hlow
  exact psoPushExecutionTime_update _ _ _ hlt

/-- A one-configuration list used to instantiate the PSO push theorems. -/
def cfgsP1 : List Configuration := [[⟨"P", 1⟩]]

/-- C4 witness: on a fresh one-particle PSO over one configuration, pushing
time 0 (below the sentinel, vacuously below all zero previous pushes) makes
the global best time 0 and the global best configuration the cursor's. -/
theorem psoPushExecutionTime_new_global_best_witness :
    (∀ u ∈ pushedTimes ([] : List PSOOp), (0 : ℚ) < u) ∧ (0 : ℚ) < dblMax ∧
    ((psoPushExecutionTime cfgsP1 (psoRun cfgsP1 (psoConstruct cfgsP1 1 [0]) [])
        0).global_best_time = 0 ∧
     (psoPushExecutionTime cfgsP1 (psoRun cfgsP1 (psoConstruct cfgsP1 1 [0]) [])
        0).global_best_config =
       cfgsP1.getD (psoRun cfgsP1 (psoConstruct cfgsP1 1 [0]) []).index []) := by
  have h1 : ∀ u ∈ pushedTimes ([] : List PSOOp), (0 : ℚ) < u := by
    simp [pushedTimes]
  have h2 : (0 : ℚ) < dblMax := by decide
  exact ⟨h1, h2, psoPushExecutionTime_new_global_best cfgsP1 1 [0] [] 0 h1 h2⟩

/-- C4 counterexample to the claim as stated: on a fresh PSO (so `t` is
vacuously lower than every previously pushed time) pushing the `DBL_MAX`
"failed" sentinel leaves `global_best_config` empty — NOT the configuration at
the cursor — because the update requires a STRICT improvement over the initial
`DBL_MAX` best. -/
theorem psoPushExecutionTime_sentinel_counterexample :
    (∀ u ∈ pushedTimes ([] : List PSOOp), dblMax < u) ∧
    ¬ ((psoPushExecutionTime cfgsP1 (psoRun cfgsP1 (psoConstruct cfgsP1 1 [0]) [])
          dblMax).global_best_config =
        cfgsP1.getD (psoRun cfgsP1 (psoConstruct cfgsP1 1 [0]) []).index []) := by
  constructor
  · simp [pushedTimes]
  · decide

/-- The configuration list and parameter used to exhibit the PSO out-of-bounds
draws. -/
def cfgsP2 : List Configuration := [[⟨"P", 16⟩], [⟨"P", 32⟩]]

/-- The parameter indexed by the random-move branch in the exhibit. -/
def paramP : Parameter := ⟨"P", [16, 32]⟩

/-- C9: evaluation of the code at the failing draws.  The constructor draws
initial particle positions from `uniform_int_distribution(0,
configurations_.size())`, whose INCLUSIVE support contains the draw
`configurations_.size()` itself; with that draw the cursor equals the list
length, so `GetConfiguration`'s read `configurations_[index_]` is one past the
end (it returns the out-of-range default here).  Likewise the random-move
branch draws from `distribution(0, parameters_[i].values.size())`, whose
support contains `values.size()`, one past the end of the candidate-value
list. -/
theorem pso_draw_can_index_out_of_bounds :
    uniformIntSupport 0 cfgsP2.length cfgsP2.length ∧
    (psoConstruct cfgsP2 1 [cfgsP2.length]).index = cfgsP2.length ∧
    ¬ ((psoConstruct cfgsP2 1 [cfgsP2.length]).index < cfgsP2.length) ∧
    psoGetConfiguration cfgsP2 (psoConstruct cfgsP2 1 [cfgsP2.length]) = [] ∧
    uniformIntSupport 0 paramP.values.length paramP.values.length ∧
    ¬ (paramP.values.length < paramP.values.length) ∧
    psoRandomMoveValue [paramP] 0 paramP.values.length = 0 := by
  refine ⟨by decide, by decide, by decide, by decide, by decide, by decide, by decide⟩

/-! ## Best-result selection (`Tuner::PrintToScreen` / `Tuner::PrintFormatted`,
identical in `src/cltune.cc` and `src/tuner.cc`) -/

/-- `TunerImpl::TunerResult`: kernel name, elapsed time, local thread count,
correctness status, configuration. -/
structure TunerResult where
  kernel_name : String
  time : ℚ
  threads : ℕ
  status : Bool
  configuration : Configuration
deriving DecidableEq, Repr

/-- Default result used for the out-of-range read `tuning_results_[0]` on an
empty result list (UB in the source; all theorems below supply a non-empty
list). -/
def defaultTunerResult : TunerResult := ⟨"", 0, 0, false, []⟩

/-- The selection loop of `Tuner::PrintToScreen` and `Tuner::PrintFormatted`:
starting from `best_result = tuning_results_[0]` and `best_time = DBL_MAX`,
each result with `status` true and `best_time >= time` replaces the best. -/
def bestFold (results : List TunerResult) (init : TunerResult × ℚ) : TunerResult × ℚ :=
  results.foldl
    (fun best tuning_result =>
      if tuning_result.status = true ∧ best.2 ≥ tuning_result.time then
        (tuning_result, tuning_result.time)
      else best)
    init

/-- Best-result selection as performed by `PrintToScreen`/`PrintFormatted`:
the fold above seeded with the first result and the `DBL_MAX` best time. -/
def findBestResult (results : List TunerResult) : TunerResult × ℚ :=
  bestFold results (results.getD 0 defaultTunerResult, dblMax)

/-- The minimum elapsed time over the results with `status` true, seeded with
`DBL_MAX` (the value the selection loop starts from). -/
def minCorrectTime (results : List TunerResult) : ℚ :=
  ((results.filter (fun r => r.status)).map (fun r => r.time)).foldl min dblMax

/-- The second component of the fold is the running minimum over the correct
results' times. -/
theorem bestFold_snd (results : List TunerResult) :
    ∀ init : TunerResult × ℚ,
      (bestFold results init).2 =
        ((results.filter (fun r => r.status)).map (fun r => r.time)).foldl min init.2 := by
  induction results with
  | nil => intro init; rfl
  | cons r rest ih =>
    intro init
    by_cases hs : r.status = true
    · by_cases hge : init.2 ≥ r.time
      · have : bestFold (r :: rest) init = bestFold rest (r, r.time) := by
          simp [bestFold, hs, hge]
        rw [this, ih]
        simp [hs, min_eq_right hge]
      · have : bestFold (r :: rest) init = bestFold rest init := by
          simp [bestFold, hge]
        rw [this, ih]
        simp [hs, min_eq_left (le_of_not_ge hge)]
    · have : bestFold (r :: rest) init = bestFold rest init := by
        simp [bestFold, hs]
      rw [this, ih]
      simp [hs]

/-- Appending one more result to the fold. -/
theorem bestFold_append (results : List TunerResult) (r : TunerResult)
    (init : TunerResult × ℚ) :
    bestFold (results ++ [r]) init =
      (if r.status = true ∧ (bestFold results init).2 ≥ r.time then (r, r.time)
       else bestFold results init) := by
  simp [bestFold, List.foldl_append]

/-- The minimum over the correct times after appending one result. -/
theorem minCorrectTime_append (results : List TunerResult) (r : TunerResult) :
    minCorrectTime (results ++ [r]) =
      (if r.status = true then min (minCorrectTime results) r.time
       else minCorrectTime results) := by
  by_cases hs : r.status = true <;>
    simp [minCorrectTime, hs, List.filter_append, List.foldl_append]

/-- The selection fold returns the LAST correct result attaining the minimal
time: its output is the last element of the list of correct-and-minimal
results. -/
theorem bestFold_getLast (results : List TunerResult) (b0 : TunerResult)
    (h1 : results.any (fun r => r.status) = true)
    (h2 : ∀ r ∈ results, r.time ≤ dblMax) :
    (results.filter
        (fun r => r.status && decide (r.time = minCorrectTime results))).getLast? =
      some (bestFold results (b0, dblMax)).1 := by
  induction results using List.reverseRecOn with
  | nil => simp at h1
  | append_singleton rest r ih =>
    have hsnd : (bestFold rest (b0, dblMax)).2 = minCorrectTime rest := bestFold_snd rest _
    by_cases hs : r.status = true
    · by_cases hge : minCorrectTime rest ≥ r.time
      · have hupd : bestFold (rest ++ [r]) (b0, dblMax) = (r, r.time) := by
          rw [bestFold_append]
          rw [if_pos ⟨hs, by rw [hsnd]; exact hge⟩]
        have hmin : minCorrectTime (rest ++ [r]) = r.time := by
          rw [minCorrectTime_append, if_pos hs, min_eq_right hge]
        rw [hupd, List.filter_append, hmin]
        simp [hs]
      · have hnup : bestFold (rest ++ [r]) (b0, dblMax) = bestFold rest (b0, dblMax) := by
          rw [bestFold_append, if_neg]
          rintro ⟨-, hc⟩
          exact hge (by rw [← hsnd]; exact hc)
        have hmin : minCorrectTime (rest ++ [r]) = minCorrectTime rest := by
          rw [minCorrectTime_append, if_pos hs,
            min_eq_left (le_of_lt (lt_of_not_ge hge))]
        have hrest_any : rest.any (fun r => r.status) = true := by
          by_contra hno
          have hfilter : rest.filter (fun r => r.status) = [] := by
            rw [List.filter_eq_nil_iff]
            intro a ha
            by_contra hsa
            exact hno (List.any_eq_true.mpr ⟨a, ha, by simpa using hsa⟩)
          have : minCorrectTime rest = dblMax := by
            simp [minCorrectTime, hfilter]
          exact hge (this ▸ h2 r (by simp))
        have hfr : r.time = minCorrectTime rest → False := fun hq => hge (le_of_eq hq)
        rw [hnup, List.filter_append, hmin]
        have : List.filter
            (fun x => x.status && decide (x.time = minCorrectTime rest)) [r] = [] := by
          simp only [List.filter]
          have : (r.status && decide (r.time = minCorrectTime rest)) = false := by
            rcases Bool.eq_false_or_eq_true (decide (r.time = minCorrectTime rest)) with h | h
            · exact absurd (of_decide_eq_true h) hfr
            · simp [h]
          rw [this]
        rw [this, List.append_nil]
        exact ih hrest_any (fun x hx => h2 x (by simp [hx]))
    · have hnup : bestFold (rest ++ [r]) (b0, dblMax) = bestFold rest (b0, dblMax) := by
        rw [bestFold_append, if_neg]
        rintro ⟨hc, -⟩
        exact hs hc
      have hmin : minCorrectTime (rest ++ [r]) = minCorrectTime rest := by
        rw [minCorrectTime_append, if_neg hs]
      have hrest_any : rest.any (fun r => r.status) = true := by
        rcases List.any_eq_true.mp h1 with ⟨a, ha, hsa⟩
        rcases List.mem_append.mp ha with h | h
        · exact List.any_eq_true.mpr ⟨a, h, hsa⟩
        · simp at h
          exact absurd (h ▸ hsa) (by simpa using hs)
      rw [hnup, List.filter_append, hmin]
      have : List.filter
          (fun x => x.status && decide (x.time = minCorrectTime rest)) [r] = [] := by
        simp [List.filter, Bool.eq_false_iff.mpr hs]
      rw [this, List.append_nil]
      exact ih hrest_any (fun x hx => h2 x (by simp [hx]))

/-- C2 (amended): the selection performed by `PrintToScreen`/`PrintFormatted`
returns a result with `correctness_status = true` and the minimum elapsed time
among such results, and when several correct results share that minimal time
it keeps the one encountered LAST (the loop updates on `best_time >= time`).
Hypotheses: at least one correct result exists, and every elapsed time is at
most `DBL_MAX` (every `double` is). -/
theorem findBestResult_is_last_minimum (results : List TunerResult)
    (h1 : results.any (fun r => r.status) = true)
    (h2 : ∀ r ∈ results, r.time ≤ dblMax) :
    (results.filter
        (fun r => r.status && decide (r.time = minCorrectTime results))).getLast? =
      some (findBestResult results).1 ∧
    (findBestResult results).2 = minCorrectTime results := by
  exact ⟨bestFold_getLast results _ h1 h2, bestFold_snd results _⟩

/-- Two correct results sharing the minimal elapsed time, distinguished by
their configurations. -/
def resFirst : TunerResult := ⟨"k", 5, 1, true, [⟨"P", 1⟩]⟩

/-- The tied result appearing second in the list. -/
def resSecond : TunerResult := ⟨"k", 5, 1, true, [⟨"P", 2⟩]⟩

/-- C2 counterexample to the claim as stated: with two correct results tied at
the minimal time 5, the selection loop keeps the SECOND (its `>=` comparison
replaces the best on equality), not the first encountered. -/
theorem findBestResult_tie_keeps_last_counterexample :
    (findBestResult [resFirst, resSecond]).1 = resSecond ∧ resSecond ≠ resFirst := by
  constructor
  · decide
  · decide

/-- C2 witness: on the concrete tied list both hypotheses hold and the
selection returns the last tied correct result. -/
theorem findBestResult_is_last_minimum_witness :
    ([resFirst, resSecond].any (fun r => r.status) = true) ∧
    (∀ r ∈ [resFirst, resSecond], r.time ≤ dblMax) ∧
    (([resFirst, resSecond].filter
        (fun r => r.status && decide (r.time = minCorrectTime [resFirst, resSecond]))).getLast? =
      some (findBestResult [resFirst, resSecond]).1 ∧
     (findBestResult [resFirst, resSecond]).2 = minCorrectTime [resFirst, resSecond]) := by
  have hx1 : ([resFirst, resSecond].any (fun r => r.status)) = true := by decide
  have hx2 : ∀ r ∈ [resFirst, resSecond], r.time ≤ dblMax := by decide
  exact ⟨hx1, hx2, findBestResult_is_last_minimum [resFirst, resSecond] hx1 hx2⟩

/-! ## `Tuner::AddParameter` (`src/cltune.cc` lines 96-104, identical in
`src/tuner.cc` lines 144-151) -/

/-- The kernel data relevant to parameter declaration: `KernelInfo`'s name and
its parameter list (`parameters_`). -/
structure KernelData where
  name : String
  parameters : List Parameter
deriving DecidableEq, Repr

/-- Default used for the (guarded) indexed read of the kernel vector. -/
def defaultKernelData : KernelData := ⟨"", []⟩

/-- `KernelInfo::ParameterExists`: loops over all parameters and reports
whether the given name is present. -/
def parameterExists (parameters : List Parameter) (parameter_name : String) : Bool :=
  parameters.any (fun parameter => parameter.name == parameter_name)

/-- `KernelInfo::AddParameter`: pushes the new parameter onto the list. -/
def kernelAddParameter (k : KernelData) (name : String) (values : List Int) : KernelData :=
  { k with parameters := k.parameters ++ [⟨name, values⟩] }

/-- `Tuner::AddParameter`: rejects an out-of-range kernel id, rejects a
duplicate parameter name, otherwise appends the parameter to the kernel. -/
def tunerAddParameter (kernels : List KernelData) (id : ℕ) (parameter_name : String)
    (values : List Int) : Except String (List KernelData) :=
  if id ≥ kernels.length then .error "Invalid kernel ID"
  else if parameterExists (kernels.getD id defaultKernelData).parameters parameter_name then
    .error "Parameter already exists"
  else .ok (kernels.set id
    (kernelAddParameter (kernels.getD id defaultKernelData) parameter_name values))

/-- C3: for a valid kernel id, `AddParameter` with a not-yet-declared name
succeeds and appends the parameter, and calling it again with the same name
(now existing) fails with the duplicate-parameter error. -/
theorem tunerAddParameter_fresh_then_duplicate (kernels : List KernelData) (id : ℕ)
    (parameter_name : String) (values values' : List Int)
    (hid : id < kernels.length)
    (hfresh : parameterExists (kernels.getD id defaultKernelData).parameters
      parameter_name = false) :
    ∃ kernels',
      tunerAddParameter kernels id parameter_name values = .ok kernels' ∧
      (kernels'.getD id defaultKernelData).parameters =
        (kernels.getD id defaultKernelData).parameters ++ [⟨parameter_name, values⟩] ∧
      tunerAddParameter kernels' id parameter_name values' =
        .error "Parameter already exists" := by
  have hnid : ¬ id ≥ kernels.length := not_le.mpr hid
  have hget : ((kernels.set id
      (kernelAddParameter (kernels.getD id defaultKernelData) parameter_name
        values)).getD id defaultKernelData).parameters =
      (kernels.getD id defaultKernelData).parameters ++ [⟨parameter_name, values⟩] := by
    rw [List.getD_eq_getElem _ _ (by simpa using hid)]
    rw [List.getElem_set_self]
    rfl
  refine ⟨kernels.set id
    (kernelAddParameter (kernels.getD id defaultKernelData) parameter_name values), ?_, hget, ?_⟩
  · unfold tunerAddParameter
    rw [if_neg hnid, if_neg (by rw [hfresh]; decide)]
  · have hlen : (kernels.set id
        (kernelAddParameter (kernels.getD id defaultKernelData) parameter_name values)).length =
        kernels.length := by simp
    have hdup : parameterExists
        ((kernels.set id (kernelAddParameter (kernels.getD id defaultKernelData)
          parameter_name values)).getD id defaultKernelData).parameters parameter_name = true := by
      rw [hget]
      simp [parameterExists]
    unfold tunerAddParameter
    rw [if_neg (by rw [hlen]; exact hnid), if_pos hdup]

/-- A one-kernel tuner used to instantiate the AddParameter theorem. -/
def kernelsW : List KernelData := [⟨"my_kernel", [⟨"A", [1, 2]⟩]⟩]

/-- C3 witness: on a concrete tuner with one kernel already holding parameter
"A", adding "B" succeeds and appends it, and adding "B" again fails with the
duplicate-parameter error. -/
theorem tunerAddParameter_fresh_then_duplicate_witness :
    0 < kernelsW.length ∧
    parameterExists (kernelsW.getD 0 defaultKernelData).parameters "B" = false ∧
    ∃ kernels',
      tunerAddParameter kernelsW 0 "B" [4, 8] = .ok kernels' ∧
      (kernels'.getD 0 defaultKernelData).parameters =
        (kernelsW.getD 0 defaultKernelData).parameters ++ [⟨"B", [4, 8]⟩] ∧
      tunerAddParameter kernels' 0 "B" [16] = .error "Parameter already exists" := by
  exact ⟨by decide, by decide,
    tunerAddParameter_fresh_then_duplicate kernelsW 0 "B" [4, 8] [16] (by decide) (by decide)⟩

/-! ## Feature normalization (`src/ml_model.cc`,
`MLModel<float>::ComputeNormalizations` / `NormalizeFeatures`)

The template is instantiated at `T = float` only; exact rationals stand in for
`float` values.  The properties at stake — which value the computed range is
and whether a zero range is used as a divisor — are exact (the failing input
below involves only equal values, whose subtraction is exact in floating
point). -/

/-- The single pass of `ComputeNormalizations` over column `nid` of the
training matrix: running minimum (from `FLT_MAX`), running maximum (from
`-FLT_MAX`) and running sum (from 0), mirroring the `mid` loop. -/
def columnStats (x : List (List ℚ)) (nid : ℕ) : ℚ × ℚ × ℚ :=
  x.foldl
    (fun acc row =>
      let value := row.getD nid 0
      (if value < acc.1 then value else acc.1,
       if value > acc.2.1 then value else acc.2.1,
       acc.2.2 + value))
    (fltMax, -fltMax, 0)

/-- `MLModel::ComputeNormalizations`: per feature, the range `max - min` and
the mean `sum / m`.  (The source's `ranges_.resize(n, 1)` pre-fills the ranges
with 1, but the loop then unconditionally overwrites every entry with
`max - min`, so the net result is the pair below: no zero-range guard
survives.) -/
def computeNormalizations (x : List (List ℚ)) : List ℚ × List ℚ :=
  let m := x.length
  let n := (x.getD 0 []).length
  ((List.range n).map (fun nid => (columnStats x nid).2.1 - (columnStats x nid).1),
   (List.range n).map (fun nid => (columnStats x nid).2.2 / (m : ℚ)))

/-- `MLModel::NormalizeFeatures`: standardizes every feature value as
`(value - mean) / range`, with the ranges and means computed above used as-is
(in particular a range of 0 is used as a divisor unchanged). -/
def normalizeFeatures (ranges means : List ℚ) (x : List (List ℚ)) : List (List ℚ) :=
  x.map (fun row =>
    (List.range row.length).map (fun nid =>
      (row.getD nid 0 - means.getD nid 0) / ranges.getD nid 0))

/-- Modelled from the spec: "range of 0 must be guarded to avoid division by
zero — treat as range 1".  This guard is what the claim asserts and what
`MLModel::ComputeNormalizations` does NOT contain. -/
def specGuardRanges (ranges : List ℚ) : List ℚ :=
  ranges.map (fun r => if r = 0 then 1 else r)

/-- Evaluation of the single normalization pass on the constant column 5:
minimum 5, maximum 5, sum 10. -/
theorem columnStats_const_five : columnStats [[(5 : ℚ)], [5]] 0 = (5, 5, 10) := by
  have h1 : (5 : ℚ) < fltMax := by norm_num [fltMax]
  have h2 : ¬ ((5 : ℚ) < 5) := by norm_num
  have h3 : (5 : ℚ) > -fltMax := by norm_num [fltMax]
  have h4 : ¬ ((5 : ℚ) > 5) := by norm_num
  simp [columnStats, h1, h2, h3, h4]
  norm_num

/-- C7: evaluation of the code at the failing input.  On the training matrix
`[[5], [5]]` (one feature, constant across the training data)
`ComputeNormalizations` computes range 0 — not the guarded range 1 the claim
asserts — and `NormalizeFeatures` then divides by that 0 range (rational
division by zero yields 0 here; in the `float` instantiation it yields
NaN/inf). -/
theorem computeNormalizations_zero_range_unguarded :
    (computeNormalizations [[(5 : ℚ)], [5]]).1 = [0] ∧
    specGuardRanges (computeNormalizations [[(5 : ℚ)], [5]]).1 = [1] ∧
    (computeNormalizations [[(5 : ℚ)], [5]]).1 ≠
      specGuardRanges (computeNormalizations [[(5 : ℚ)], [5]]).1 ∧
    (computeNormalizations [[(5 : ℚ)], [5]]).2 = [5] := by
  have hr : (computeNormalizations [[(5 : ℚ)], [5]]).1 = [0] := by
    simp [computeNormalizations, List.range_succ, columnStats_const_five]
  have hm : (computeNormalizations [[(5 : ℚ)], [5]]).2 = [5] := by
    simp [computeNormalizations, List.range_succ, columnStats_const_five]
    norm_num
  have hg : specGuardRanges [(0 : ℚ)] = [1] := by
    simp [specGuardRanges]
  refine ⟨hr, by rw [hr]; exact hg, by rw [hr, hg]; decide, hm⟩

/-! ## Searcher construction copies the configuration list
(`Searcher::Searcher`, `searcher.h` line 74, `RandomSearch::RandomSearch`)

The header declares the member by value — `Configurations configurations_;` —
and the constructor initializes it with `configurations_(configurations)`, a
copy of the caller's vector.  C++ object identity is modelled by a store of
configuration lists indexed by address: construction allocates a fresh address
holding a copy of the list at the caller's address, and
`std::random_shuffle(configurations_.begin(), configurations_.end())` (the
`RandomSearch` constructor) overwrites the contents of the searcher's own
address with a permutation of them (the permutation drawn by the RNG is an
oracle input, constrained to be a permutation). -/

/-- A store of configuration lists; an address is an index. -/
abbrev ConfigStore := List (List Configuration)

/-- `Searcher::Searcher`: allocates a fresh cell holding a copy of the
caller's configuration list (`configurations_(configurations)` with the member
declared by value), returning the new store and the address of the searcher's
private copy. -/
def searcherConstruct (store : ConfigStore) (caller : ℕ) : ConfigStore × ℕ :=
  (store ++ [store.getD caller []], store.length)

/-- `RandomSearch::RandomSearch`: the base-class construction followed by
`std::random_shuffle` over the searcher's own `configurations_`; the shuffled
contents are the oracle input `shuffled`. -/
def randomSearchConstruct (store : ConfigStore) (caller : ℕ)
    (shuffled : List Configuration) : ConfigStore × ℕ :=
  let base := searcherConstruct store caller
  (base.1.set base.2 shuffled, base.2)

/-- C10: constructing a Searcher stores a private copy of the configuration
list: the caller's list is unchanged by base-class construction, the
searcher's address is distinct from the caller's, and RandomSearch's
construction-time shuffle permutes only its private copy (the caller's cell
still holds the original list, and the searcher's cell holds a permutation of
it). -/
theorem searcherConstruct_private_copy (store : ConfigStore) (caller : ℕ)
    (shuffled : List Configuration)
    (hc : caller < store.length)
    (hperm : shuffled.Perm (store.getD caller [])) :
    (searcherConstruct store caller).1.getD caller [] = store.getD caller [] ∧
    (searcherConstruct store caller).2 ≠ caller ∧
    (searcherConstruct store caller).1.getD (searcherConstruct store caller).2 [] =
      store.getD caller [] ∧
    (randomSearchConstruct store caller shuffled).1.getD caller [] = store.getD caller [] ∧
    ((randomSearchConstruct store caller shuffled).1.getD
      (randomSearchConstruct store caller shuffled).2 []).Perm (store.getD caller []) := by
  have hne : store.length ≠ caller := Nat.ne_of_gt hc
  have hcaller_lt : caller < (store ++ [store.getD caller []]).length := by
    simp
    omega
  refine ⟨?_, hne, ?_, ?_, ?_⟩
  · unfold searcherConstruct
    rw [List.getD_eq_getElem _ _ hcaller_lt, List.getElem_append_left hc,
      List.getD_eq_getElem _ _ hc]
  · unfold searcherConstruct
    rw [List.getD_eq_getElem _ _ (by simp)]
    simp
  · unfold randomSearchConstruct searcherConstruct
    dsimp only
    rw [List.getD_eq_getElem _ _ (by simpa using hcaller_lt),
      List.getElem_set_ne (by simpa using hne), List.getElem_append_left hc,
      List.getD_eq_getElem _ _ hc]
  · unfold randomSearchConstruct searcherConstruct
    dsimp only
    rw [List.getD_eq_getElem _ _ (by simp), List.getElem_set_self]
    exact hperm

/-- A two-cell store used to instantiate the private-copy theorem: cell 0 is
another client's list, cell 1 is the caller's list. -/
def storeW : ConfigStore := [[[⟨"Q", 9⟩]], [[⟨"P", 1⟩], [⟨"P", 2⟩]]]

/-- C10 witness: constructing a RandomSearch over cell 1 of the concrete store
with a concrete (reversed) shuffle leaves the caller's list unchanged and
makes the private copy a permutation of it. -/
theorem searcherConstruct_private_copy_witness :
    1 < storeW.length ∧
    ([[⟨"P", 2⟩], [⟨"P", 1⟩]] : List Configuration).Perm (storeW.getD 1 []) ∧
    ((searcherConstruct storeW 1).1.getD 1 [] = storeW.getD 1 [] ∧
     (searcherConstruct storeW 1).2 ≠ 1 ∧
     (searcherConstruct storeW 1).1.getD (searcherConstruct storeW 1).2 [] =
       storeW.getD 1 [] ∧
     (randomSearchConstruct storeW 1 [[⟨"P", 2⟩], [⟨"P", 1⟩]]).1.getD 1 [] =
       storeW.getD 1 [] ∧
     ((randomSearchConstruct storeW 1 [[⟨"P", 2⟩], [⟨"P", 1⟩]]).1.getD
       (randomSearchConstruct storeW 1 [[⟨"P", 2⟩], [⟨"P", 1⟩]]).2 []).Perm
       (storeW.getD 1 [])) := by
  have hp : ([[⟨"P", 2⟩], [⟨"P", 1⟩]] : List Configuration).Perm (storeW.getD 1 []) := by
    have : storeW.getD 1 [] = [[⟨"P", 1⟩], [⟨"P", 2⟩]] := by decide
    rw [this]
    exact List.Perm.swap _ _ _
  exact ⟨by decide, hp,
    searcherConstruct_private_copy storeW 1 [[⟨"P", 2⟩], [⟨"P", 1⟩]] (by decide) hp⟩

end CLTune
